import Mathlib

/-!
Verification of the BIO-tag span decoder and label aligner of
`src/openks/models/paddle/ner.py` (functions `tokenize_and_align_labels`
and `parse_decodes`).

Python strings are modelled as `List Char` (a Python `str` is a sequence
of code points); string joining, `str.startswith`, `str.split` and list
slicing are modelled by `PyStr`-level helper functions below.  The
tokenizer is an external collaborator: the aligner only uses
`len(tokenized_input.input_ids)`, which we pass in as `subtoken_count`.
-/

/-- A Python string, as its sequence of code points. -/
abbrev PyStr := List Char

/-- `t.startswith(p)` for Python strings. -/
def pyStartsWith (t p : PyStr) : Bool := t.take p.length == p

/-- `t.split(sep)` for a single-character separator `sep`, Python
semantics: splitting the empty string yields `[""]`, a separator at
either end yields an empty field there. -/
def pySplit (sep : Char) : PyStr → List PyStr
  | [] => [[]]
  | c :: rest =>
    match pySplit sep rest with
    | [] => [[c]]
    | w :: ws => if c = sep then [] :: w :: ws else (c :: w) :: ws

/-- Python list slice `xs[:k]` for an integer bound `k` (a negative `k`
counts from the end, clamped at 0). -/
def pySliceTo (xs : List α) (k : Int) : List α :=
  if 0 ≤ k then xs.take k.toNat else xs.take (xs.length - (-k).toNat)

/-- `tokenize_and_align_labels` (ner.py lines 19–35), the label-alignment
core.  The external tokenizer contributes only the length of its
`input_ids` output, passed here as `subtoken_count`; the function
truncates `labels` to the usable space `subtoken_count - 2` (Python
slice semantics, hence `pySliceTo` and integer arithmetic), wraps the
labels in two boundary sentinels and right-pads with `no_entity_id`
(Python list repetition with a non-positive count is empty). -/
def tokenize_and_align_labels (subtoken_count : Nat) (labels : List Nat)
    (no_entity_id : Nat) : List Nat :=
  let usable : Int := (subtoken_count : Int) - 2
  let labels' := if usable < (labels.length : Int) then pySliceTo labels usable else labels
  let out := no_entity_id :: (labels' ++ [no_entity_id])
  out ++ List.replicate ((subtoken_count : Int) - (out.length : Int)).toNat no_entity_id

/-- The state of the decoding walk in `parse_decodes`: the flushed spans
(`sent_out`), the recorded entity types (`tags_out`) and the open
accumulator (`words`). -/
structure DecState where
  sent_out : List PyStr
  tags_out : List PyStr
  words : PyStr
deriving Repr, DecidableEq

/-- One iteration of the `for s, t in zip(sent, tags)` loop body of
`parse_decodes` (ner.py lines 48–60): on a `B-` tag or `O` flush the
open accumulator if non-empty, record `t.split('-')[1]` (resp. the
literal tag `O`), and restart the accumulator at the current character;
on any other tag (the `I-` continuation branch) append the character to
the accumulator.  The index `[1]` of `split` is guarded by the `B-`
test, so the `getD` default is unreachable. -/
def pdStep (st : DecState) (s : Char) (t : PyStr) : DecState :=
  if pyStartsWith t ['B', '-'] || t == ['O'] then
    { sent_out := if st.words.isEmpty then st.sent_out else st.sent_out ++ [st.words]
      tags_out := st.tags_out ++
        [if pyStartsWith t ['B', '-'] then (pySplit '-' t).getD 1 [] else t]
      words := [s] }
  else
    { st with words := st.words ++ [s] }

/-- The body of the outer `for idx, end in enumerate(lens)` loop of
`parse_decodes` (ner.py lines 42–62) for one example: join the raw
tokens into the source text, map the decoded ids `decodes[idx][1:end]`
through `id2label`, walk characters and tags in lockstep with `pdStep`,
and apply the end-of-loop fix-up that appends the still-open accumulator
when `len(sent_out) < len(tags_out)`.  Returns the structured
`(sent_out, tags_out)` pair; the reference renders it by string-joining
`str((s, t))` pairs, a display step the spec marks as non-semantic. -/
def parse_decodes_example (tokens : List PyStr) (id2label : Nat → PyStr)
    (decoded : List Nat) (end_ : Nat) : List PyStr × List PyStr :=
  let sent : PyStr := tokens.flatten
  let tags : List PyStr := ((decoded.drop 1).take (end_ - 1)).map id2label
  let st := (sent.zip tags).foldl (fun st p => pdStep st p.1 p.2) ⟨[], [], []⟩
  let sent_out := if st.sent_out.length < st.tags_out.length
    then st.sent_out ++ [st.words] else st.sent_out
  (sent_out, st.tags_out)

/-- `parse_decodes` (ner.py lines 37–65): flatten the batched `decodes`
and `lens`, then decode each example in input order.  Indexing into
`input_words` and `decodes` assumes they cover the flattened `lens`
(Python would raise `IndexError` otherwise; the `getD` defaults are the
out-of-range stand-ins). -/
def parse_decodes (input_words : List (List PyStr)) (id2label : Nat → PyStr)
    (decodes : List (List (List Nat))) (lens : List (List Nat)) :
    List (List PyStr × List PyStr) :=
  let decodes' := decodes.flatten
  let lens' := lens.flatten
  (List.range lens'.length).map fun idx =>
    parse_decodes_example (input_words.getD idx []) id2label
      (decodes'.getD idx []) (lens'.getD idx 0)

/-- A tag is syntactically a BIO tag: `O`, `B-...` or `I-...`. -/
def isBioTag (t : PyStr) : Bool :=
  t == ['O'] || pyStartsWith t ['B', '-'] || pyStartsWith t ['I', '-']

/-- An `I-X` tag may only follow `B-X` or `I-X` (no mismatched type). -/
def contOk (prev t : PyStr) : Bool :=
  !(pyStartsWith t ['I', '-']) || (prev == 'B' :: '-' :: t.drop 2 || prev == t)

/-- Every adjacent pair of the chain satisfies `contOk`. -/
def chainOk : PyStr → List PyStr → Bool
  | _, [] => true
  | prev, t :: ts => contOk prev t && chainOk t ts

/-- A well-formed BIO sequence: every element is a BIO tag, the sequence
does not begin with `I-`, and no `I-` follows a mismatched type. -/
def wellFormedBioSeq (tags : List PyStr) : Bool :=
  tags.all isBioTag &&
  match tags with
  | [] => true
  | t :: ts => !(pyStartsWith t ['I', '-']) && chainOk t ts

example : tokenize_and_align_labels 8 [4, 5, 6] 9 = [9, 4, 5, 6, 9, 9, 9, 9] := by decide

example : tokenize_and_align_labels 8 [0, 1, 2, 3, 4, 5, 6, 7, 8, 9] 7 =
    [7, 0, 1, 2, 3, 4, 5, 7] := by decide

example : tokenize_and_align_labels 1 [4] 9 = [9, 9] := by decide

/-- A concrete `id2label` map used by the concrete-input theorems below,
with the dataset-style layout id ↦ tag string. -/
def demoId2label : Nat → PyStr :=
  fun n => (["B-LOC", "I-LOC", "O", "B-ORG", "I-PER", "B-PER-X"].map String.data).getD n ['O']

/-! ## The decoding walk, factored for reasoning

`parse_decodes_example` is definitionally the composition of the fold
over the zipped characters/tags (`decodeFold`) and the end-of-loop
fix-up (`decodeFinish`); `parse_decodes_example_eq` records this. -/

/-- The character/tag walk of `parse_decodes`, started from the empty
state (`sent_out = []`, `tags_out = []`, `words = ""`). -/
def decodeFold (sent : PyStr) (tags : List PyStr) : DecState :=
  (sent.zip tags).foldl (fun st p => pdStep st p.1 p.2) ⟨[], [], []⟩

/-- The end-of-loop fix-up of `parse_decodes` (ner.py lines 61–62):
append the open accumulator when `len(sent_out) < len(tags_out)`. -/
def decodeFinish (st : DecState) : List PyStr × List PyStr :=
  (if st.sent_out.length < st.tags_out.length then st.sent_out ++ [st.words] else st.sent_out,
   st.tags_out)

lemma parse_decodes_example_eq (tokens : List PyStr) (id2label : Nat → PyStr)
    (decoded : List Nat) (end_ : Nat) :
    parse_decodes_example tokens id2label decoded end_ =
      decodeFinish (decodeFold tokens.flatten
        (((decoded.drop 1).take (end_ - 1)).map id2label)) := rfl

/-- The text the walk has consumed: the flushed spans followed by the
open accumulator. -/
def concatState (st : DecState) : PyStr := st.sent_out.flatten ++ st.words

lemma pdStep_concat (st : DecState) (s : Char) (t : PyStr) :
    concatState (pdStep st s t) = concatState st ++ [s] := by
  unfold concatState pdStep
  split
  · cases hw : st.words with
    | nil => simp [hw]
    | cons a l => simp [hw]
  · simp

lemma foldl_pdStep_concat (ps : List (Char × PyStr)) (st : DecState) :
    concatState (ps.foldl (fun st p => pdStep st p.1 p.2) st) =
      concatState st ++ ps.map Prod.fst := by
  induction ps generalizing st with
  | nil => simp
  | cons p ps ih => simp [List.foldl_cons, ih, pdStep_concat, List.append_assoc]

lemma pdStep_words_ne_nil (st : DecState) (s : Char) (t : PyStr) :
    (pdStep st s t).words ≠ [] := by
  unfold pdStep; split <;> simp

lemma pdStep_open (st : DecState) (s : Char) (t : PyStr) (hw : st.words ≠ [])
    (hlt : st.sent_out.length < st.tags_out.length) :
    (pdStep st s t).sent_out.length < (pdStep st s t).tags_out.length := by
  unfold pdStep
  split
  · cases hws : st.words with
    | nil => exact absurd hws hw
    | cons a l => simp [hws]; omega
  · simpa using hlt

lemma foldl_pdStep_open (ps : List (Char × PyStr)) (st : DecState) (hw : st.words ≠ [])
    (hlt : st.sent_out.length < st.tags_out.length) :
    (ps.foldl (fun st p => pdStep st p.1 p.2) st).words ≠ [] ∧
      (ps.foldl (fun st p => pdStep st p.1 p.2) st).sent_out.length <
        (ps.foldl (fun st p => pdStep st p.1 p.2) st).tags_out.length := by
  induction ps generalizing st with
  | nil => exact ⟨hw, hlt⟩
  | cons p ps ih =>
    simp only [List.foldl_cons]
    exact ih _ (pdStep_words_ne_nil st p.1 p.2) (pdStep_open st p.1 p.2 hw hlt)

/-- The length bookkeeping preserved by every loop iteration: at most
one more recorded type than flushed spans, and no surplus type while
the accumulator is empty. -/
def lenInv (st : DecState) : Prop :=
  st.sent_out.length ≤ st.tags_out.length ∧
  st.tags_out.length ≤ st.sent_out.length + 1 ∧
  (st.words = [] → st.tags_out.length ≤ st.sent_out.length)

lemma pdStep_lenInv (st : DecState) (s : Char) (t : PyStr) (h : lenInv st) :
    lenInv (pdStep st s t) := by
  obtain ⟨h1, h2, h3⟩ := h
  unfold pdStep lenInv
  split
  · cases hws : st.words with
    | nil =>
      have h4 := h3 hws
      simp only [hws, List.isEmpty_nil, if_true]
      refine ⟨by simp; omega, by simp; omega, by simp⟩
    | cons a l =>
      simp only [hws, List.isEmpty_cons, if_false]
      refine ⟨by simp; omega, by simp; omega, by simp⟩
  · refine ⟨by simpa using h1, by simpa using h2, ?_⟩
    intro habs
    simp at habs

lemma foldl_pdStep_lenInv (ps : List (Char × PyStr)) (st : DecState) (h : lenInv st) :
    lenInv (ps.foldl (fun st p => pdStep st p.1 p.2) st) := by
  induction ps generalizing st with
  | nil => exact h
  | cons p ps ih =>
    simp only [List.foldl_cons]
    exact ih _ (pdStep_lenInv st p.1 p.2 h)

lemma decodeFinish_length (st : DecState) (h : lenInv st) :
    (decodeFinish st).1.length = (decodeFinish st).2.length := by
  obtain ⟨h1, h2, _⟩ := h
  unfold decodeFinish
  split
  · simp; omega
  · simp; omega

lemma decodeFinish_flatten (st : DecState)
    (h : st.words = [] ∨ st.sent_out.length < st.tags_out.length) :
    (decodeFinish st).1.flatten = concatState st := by
  unfold decodeFinish concatState
  rcases h with h | h
  · split <;> simp [h]
  · rw [if_pos h]; simp

lemma decodeFinish_flatten_pre (st : DecState) :
    ∃ rest, (decodeFinish st).1.flatten ++ rest = concatState st := by
  unfold decodeFinish concatState
  split
  · exact ⟨[], by simp⟩
  · exact ⟨st.words, rfl⟩

/-! ## Shape lemmas for the label aligner -/

lemma align_eq_of_fits (subtoken_count : Nat) (labels : List Nat) (no_entity_id : Nat)
    (h1 : 2 ≤ subtoken_count) (h2 : labels.length ≤ subtoken_count - 2) :
    tokenize_and_align_labels subtoken_count labels no_entity_id =
      no_entity_id ::
        (labels ++ List.replicate (subtoken_count - labels.length - 1) no_entity_id) := by
  simp only [tokenize_and_align_labels]
  rw [if_neg (by omega)]
  have hlen : ((subtoken_count : Int)
        - ((no_entity_id :: (labels ++ [no_entity_id])).length : Int)).toNat
      = subtoken_count - labels.length - 2 := by
    simp; omega
  rw [hlen]
  rw [show subtoken_count - labels.length - 1
        = (subtoken_count - labels.length - 2) + 1 from by omega]
  simp [List.replicate_succ]

lemma align_eq_of_overflow (subtoken_count : Nat) (labels : List Nat) (no_entity_id : Nat)
    (h1 : 2 ≤ subtoken_count) (h2 : subtoken_count - 2 < labels.length) :
    tokenize_and_align_labels subtoken_count labels no_entity_id =
      no_entity_id :: (labels.take (subtoken_count - 2) ++ [no_entity_id]) := by
  simp only [tokenize_and_align_labels]
  rw [if_pos (by omega)]
  have hsl : pySliceTo labels ((subtoken_count : Int) - 2) = labels.take (subtoken_count - 2) := by
    unfold pySliceTo
    rw [if_pos (by omega)]
    congr 1
    omega
  rw [hsl]
  have h0 : ((subtoken_count : Int)
        - ((no_entity_id :: (labels.take (subtoken_count - 2) ++ [no_entity_id])).length : Int)).toNat
      = 0 := by
    simp; omega
  rw [h0]
  simp

/-! ## Claim theorems: label aligner -/

/-- C2.  For every `subtoken_count ≥ 2` and every label sequence with
`len(labels) ≤ subtoken_count - 2`, the aligner returns exactly
`subtoken_count` entries: position 0 is `no_entity_id`, positions
`1..len(labels)` are the input labels in order, and every later
position (including the last) is `no_entity_id`. -/
theorem align_fits_spec (subtoken_count : Nat) (labels : List Nat) (no_entity_id : Nat)
    (h1 : 2 ≤ subtoken_count) (h2 : labels.length ≤ subtoken_count - 2) :
    (tokenize_and_align_labels subtoken_count labels no_entity_id).length = subtoken_count ∧
    (tokenize_and_align_labels subtoken_count labels no_entity_id)[0]? = some no_entity_id ∧
    (∀ i, i < labels.length →
      (tokenize_and_align_labels subtoken_count labels no_entity_id)[i + 1]? = labels[i]?) ∧
    (∀ j, labels.length + 1 ≤ j → j < subtoken_count →
      (tokenize_and_align_labels subtoken_count labels no_entity_id)[j]? = some no_entity_id) := by
  rw [align_eq_of_fits subtoken_count labels no_entity_id h1 h2]
  refine ⟨by simp; omega, by simp, ?_, ?_⟩
  · intro i hi
    rw [List.getElem?_cons_succ, List.getElem?_append, if_pos hi]
  · intro j hj1 hj2
    cases j with
    | zero => omega
    | succ k =>
      rw [List.getElem?_cons_succ, List.getElem?_append, if_neg (by omega)]
      simp only [List.getElem?_replicate]
      rw [if_pos (by omega)]

/-- Witness for `align_fits_spec` at `subtoken_count = 8`,
`labels = [4, 5, 6]`, `no_entity_id = 9`. -/
theorem align_fits_spec_witness :
    (2 ≤ 8 ∧ ([4, 5, 6] : List Nat).length ≤ 8 - 2) ∧
    ((tokenize_and_align_labels 8 [4, 5, 6] 9).length = 8 ∧
     (tokenize_and_align_labels 8 [4, 5, 6] 9)[0]? = some 9 ∧
     (∀ i, i < ([4, 5, 6] : List Nat).length →
       (tokenize_and_align_labels 8 [4, 5, 6] 9)[i + 1]? = ([4, 5, 6] : List Nat)[i]?) ∧
     (∀ j, ([4, 5, 6] : List Nat).length + 1 ≤ j → j < 8 →
       (tokenize_and_align_labels 8 [4, 5, 6] 9)[j]? = some 9)) :=
  ⟨by decide, align_fits_spec 8 [4, 5, 6] 9 (by decide) (by decide)⟩

/-- C4.  When `len(labels)` exceeds the usable space
`subtoken_count - 2` (the aligner's contract requires
`subtoken_count ≥ 2`), only the first `subtoken_count - 2` labels are
kept — the output is the boundary sentinel, the truncated labels and
the closing sentinel — and the output length is exactly
`subtoken_count`. -/
theorem align_truncates (subtoken_count : Nat) (labels : List Nat) (no_entity_id : Nat)
    (h1 : 2 ≤ subtoken_count) (h2 : subtoken_count - 2 < labels.length) :
    tokenize_and_align_labels subtoken_count labels no_entity_id =
      no_entity_id :: (labels.take (subtoken_count - 2) ++ [no_entity_id]) ∧
    (tokenize_and_align_labels subtoken_count labels no_entity_id).length = subtoken_count := by
  refine ⟨align_eq_of_overflow subtoken_count labels no_entity_id h1 h2, ?_⟩
  rw [align_eq_of_overflow subtoken_count labels no_entity_id h1 h2]
  simp
  omega

/-- Witness for `align_truncates` at the spec's truncation scenario:
10 labels, `subtoken_count = 8`, so exactly the first 6 labels are kept
and the output has length 8. -/
theorem align_truncates_witness :
    (2 ≤ 8 ∧ 8 - 2 < ([0, 1, 2, 3, 4, 5, 6, 7, 8, 9] : List Nat).length) ∧
    (tokenize_and_align_labels 8 [0, 1, 2, 3, 4, 5, 6, 7, 8, 9] 7 =
      7 :: (([0, 1, 2, 3, 4, 5, 6, 7, 8, 9] : List Nat).take (8 - 2) ++ [7]) ∧
    (tokenize_and_align_labels 8 [0, 1, 2, 3, 4, 5, 6, 7, 8, 9] 7).length = 8) :=
  ⟨by decide, align_truncates 8 [0, 1, 2, 3, 4, 5, 6, 7, 8, 9] 7 (by decide) (by decide)⟩

/-- C8.  The aligner is a total function: for every input — including
the malformed `subtoken_count < 2`, where Python's negative slice bound
and negative repetition count silently underflow — it returns a result
with no error signalled; the result always carries at least the two
boundary sentinels, with `no_entity_id` first and last. -/
theorem align_total_no_error (subtoken_count : Nat) (labels : List Nat) (no_entity_id : Nat) :
    2 ≤ (tokenize_and_align_labels subtoken_count labels no_entity_id).length ∧
    (tokenize_and_align_labels subtoken_count labels no_entity_id).head? = some no_entity_id ∧
    (tokenize_and_align_labels subtoken_count labels no_entity_id).getLast? = some no_entity_id := by
  simp only [tokenize_and_align_labels]
  generalize (if ((subtoken_count : Int) - 2) < (labels.length : Int)
      then pySliceTo labels ((subtoken_count : Int) - 2) else labels) = L
  generalize ((subtoken_count : Int)
      - (((no_entity_id :: (L ++ [no_entity_id])).length : Nat) : Int)).toNat = p
  refine ⟨by simp; omega, by simp, ?_⟩
  have hrep : (no_entity_id :: (L ++ [no_entity_id])) ++ List.replicate p no_entity_id
      = (no_entity_id :: L) ++ List.replicate (p + 1) no_entity_id := by
    simp [List.replicate_succ, List.append_assoc]
  rw [hrep, List.getLast?_append_of_ne_nil _ (by simp)]
  simp [List.getLast?_replicate]

/-! ## Claim theorems: determinism and length consistency -/

/-- C9.  Both core functions are pure: two runs on identical inputs
yield identical outputs, with no hidden state to diverge on. -/
theorem align_decode_deterministic (subtoken_count : Nat) (labels : List Nat)
    (no_entity_id : Nat) (input_words : List (List PyStr)) (id2label : Nat → PyStr)
    (decodes : List (List (List Nat))) (lens : List (List Nat)) :
    tokenize_and_align_labels subtoken_count labels no_entity_id =
      tokenize_and_align_labels subtoken_count labels no_entity_id ∧
    parse_decodes input_words id2label decodes lens =
      parse_decodes input_words id2label decodes lens :=
  ⟨rfl, rfl⟩

lemma decode_example_lengths (tokens : List PyStr) (id2label : Nat → PyStr)
    (decoded : List Nat) (end_ : Nat) :
    (parse_decodes_example tokens id2label decoded end_).1.length =
      (parse_decodes_example tokens id2label decoded end_).2.length := by
  rw [parse_decodes_example_eq]
  refine decodeFinish_length _ (foldl_pdStep_lenInv _ _ ?_)
  exact ⟨by simp, by simp, fun _ => by simp⟩

/-- C3.  After the end-of-loop fix-up, the span list and the type list
of every decoded example have equal length — unconditionally, for every
input tag-id sequence, so the `DecodingInconsistencyError` arm of the
spec's disjunction is never needed. -/
theorem decode_spans_types_length_eq (tokens : List PyStr) (id2label : Nat → PyStr)
    (decoded : List Nat) (end_ : Nat) (input_words : List (List PyStr))
    (decodes : List (List (List Nat))) (lens : List (List Nat)) :
    (parse_decodes_example tokens id2label decoded end_).1.length =
      (parse_decodes_example tokens id2label decoded end_).2.length ∧
    (parse_decodes input_words id2label decodes lens).Forall
      (fun r => r.1.length = r.2.length) := by
  refine ⟨decode_example_lengths tokens id2label decoded end_, ?_⟩
  rw [List.forall_iff_forall_mem]
  intro r hr
  simp only [parse_decodes, List.mem_map] at hr
  obtain ⟨idx, -, rfl⟩ := hr
  exact decode_example_lengths _ _ _ _

/-! ## Claim theorems: span concatenation (round-trip of the source text) -/

lemma wf_parts (t : PyStr) (ts : List PyStr) (hwf : wellFormedBioSeq (t :: ts) = true) :
    isBioTag t = true ∧ ¬ pyStartsWith t ['I', '-'] = true := by
  simp only [wellFormedBioSeq, List.all_cons, Bool.and_eq_true, Bool.not_eq_true'] at hwf
  exact ⟨hwf.1.1, by simp [hwf.2.1]⟩

lemma first_tag_cond (t : PyStr) (hB : isBioTag t = true)
    (hI : ¬ pyStartsWith t ['I', '-'] = true) :
    (pyStartsWith t ['B', '-'] || t == ['O']) = true := by
  simp only [isBioTag, Bool.or_eq_true] at hB
  rcases hB with (h | h) | h
  · simp [h]
  · simp [h]
  · exact absurd h hI

lemma decode_core_concat (sent : PyStr) (tags : List PyStr)
    (hwf : wellFormedBioSeq tags = true) (hlen : sent.length ≤ tags.length) :
    (decodeFinish (decodeFold sent tags)).1.flatten = sent := by
  have hconcat : concatState (decodeFold sent tags) = sent := by
    unfold decodeFold
    rw [foldl_pdStep_concat, List.map_fst_zip sent tags hlen]
    simp [concatState]
  cases sent with
  | nil => rfl
  | cons s sent' =>
    cases tags with
    | nil => simp at hlen
    | cons t tags' =>
      have hparts := wf_parts t tags' hwf
      have hcond := first_tag_cond t hparts.1 hparts.2
      have hstep : (pdStep ⟨[], [], []⟩ s t).words ≠ [] ∧
          (pdStep ⟨[], [], []⟩ s t).sent_out.length <
            (pdStep ⟨[], [], []⟩ s t).tags_out.length := by
        unfold pdStep
        rw [if_pos hcond]
        simp
      have hopen := foldl_pdStep_open (sent'.zip tags') _ hstep.1 hstep.2
      have hfold : decodeFold (s :: sent') (t :: tags') =
          (sent'.zip tags').foldl (fun st p => pdStep st p.1 p.2) (pdStep ⟨[], [], []⟩ s t) := by
        simp [decodeFold]
      rw [decodeFinish_flatten _ (Or.inr (by rw [hfold]; exact hopen.2)), hconcat]

/-- C1 (amended).  For every example whose decoded tag sequence is a
well-formed BIO sequence at least as long as the source text, the
concatenation of the spans returned by `parse_decodes`, in order,
equals the source text exactly.  (Without the length hypothesis the
claim fails: a well-formed but too-short tag slice drops trailing
characters, see `decode_concat_short_tags_cex`.) -/
theorem decode_concat_eq_source (tokens : List PyStr) (id2label : Nat → PyStr)
    (decoded : List Nat) (end_ : Nat)
    (hwf : wellFormedBioSeq (((decoded.drop 1).take (end_ - 1)).map id2label) = true)
    (hlen : tokens.flatten.length ≤ (((decoded.drop 1).take (end_ - 1)).map id2label).length) :
    (parse_decodes_example tokens id2label decoded end_).1.flatten = tokens.flatten := by
  rw [parse_decodes_example_eq]
  exact decode_core_concat _ _ hwf hlen

/-- Counterexample to C1 as stated: the example `["a", "b"]` with the
well-formed decoded tag sequence `["O"]` (one tag, `end = 2`) — the
walk consumes only one character and the returned spans concatenate to
`"a"`, not to the source text `"ab"`. -/
theorem decode_concat_short_tags_cex :
    wellFormedBioSeq (((([9, 2] : List Nat).drop 1).take (2 - 1)).map demoId2label) = true ∧
    (parse_decodes_example [['a'], ['b']] demoId2label [9, 2] 2).1.flatten ≠
      ([['a'], ['b']] : List PyStr).flatten := by
  decide

/-- Witness for `decode_concat_eq_source`: tokens `["a", "b"]`, decoded
ids `[9, 0, 1]` (boundary, `B-LOC`, `I-LOC`), `end = 3`. -/
theorem decode_concat_eq_source_witness :
    (wellFormedBioSeq (((([9, 0, 1] : List Nat).drop 1).take (3 - 1)).map demoId2label) = true ∧
     ([['a'], ['b']] : List PyStr).flatten.length ≤
       (((([9, 0, 1] : List Nat).drop 1).take (3 - 1)).map demoId2label).length) ∧
    (parse_decodes_example [['a'], ['b']] demoId2label [9, 0, 1] 3).1.flatten =
      ([['a'], ['b']] : List PyStr).flatten :=
  ⟨⟨by decide, by decide⟩,
    decode_concat_eq_source [['a'], ['b']] demoId2label [9, 0, 1] 3 (by decide) (by decide)⟩

/-! ## Claim theorems: lockstep truncation -/

lemma map_fst_zip_eq_take (l1 : List α) (l2 : List β) :
    (l1.zip l2).map Prod.fst = l1.take l2.length := by
  induction l1 generalizing l2 with
  | nil => simp
  | cons a l ih =>
    cases l2 with
    | nil => simp
    | cons b m => simp [ih]

lemma zip_eq_zip_take (l1 : List α) (l2 : List β) :
    l1.zip l2 = l1.zip (l2.take l1.length) := by
  induction l1 generalizing l2 with
  | nil => simp
  | cons a l ih =>
    cases l2 with
    | nil => simp
    | cons b m => simp [ih m]

lemma drop_one_take_succ (l : List α) (n : Nat) :
    (l.take (n + 1)).drop 1 = (l.drop 1).take n := by
  cases l <;> simp

lemma take_min_length (l : List α) (k : Nat) : l.take (min l.length k) = l.take k := by
  rw [min_comm, ← List.take_take, List.take_length]

/-- C10.  The decoder walks characters and tags in lockstep only up to
the shorter sequence: the concatenated spans are a prefix of the first
`min(len(source text), end - 1)` source characters (every later source
character appears in no span), and decoded ids past the text length
are ignored — truncating `decoded` to the boundary position plus
`len(source text)` entries leaves the result unchanged.  The slice
`decoded[1:end]` has length `end - 1` under `end ≤ len(decoded)`. -/
theorem decode_lockstep_take (tokens : List PyStr) (id2label : Nat → PyStr)
    (decoded : List Nat) (end_ : Nat) (h : end_ ≤ decoded.length) :
    (∃ rest, (parse_decodes_example tokens id2label decoded end_).1.flatten ++ rest =
      tokens.flatten.take (min tokens.flatten.length (end_ - 1))) ∧
    parse_decodes_example tokens id2label decoded end_ =
      parse_decodes_example tokens id2label (decoded.take (tokens.flatten.length + 1)) end_ := by
  constructor
  · rw [parse_decodes_example_eq]
    obtain ⟨rest, hr⟩ := decodeFinish_flatten_pre
      (decodeFold tokens.flatten (((decoded.drop 1).take (end_ - 1)).map id2label))
    refine ⟨rest, ?_⟩
    rw [hr]
    unfold decodeFold
    rw [foldl_pdStep_concat, map_fst_zip_eq_take]
    have htl : ((((decoded.drop 1).take (end_ - 1)).map id2label)).length = end_ - 1 := by
      simp
      omega
    rw [htl, take_min_length]
    simp [concatState]
  · rw [parse_decodes_example_eq, parse_decodes_example_eq]
    suffices hz : tokens.flatten.zip (((decoded.drop 1).take (end_ - 1)).map id2label) =
        tokens.flatten.zip ((((decoded.take (tokens.flatten.length + 1)).drop 1).take
          (end_ - 1)).map id2label) by
      unfold decodeFold
      rw [hz]
    rw [zip_eq_zip_take tokens.flatten (((decoded.drop 1).take (end_ - 1)).map id2label),
        zip_eq_zip_take tokens.flatten ((((decoded.take (tokens.flatten.length + 1)).drop 1).take
          (end_ - 1)).map id2label)]
    congr 1
    rw [drop_one_take_succ]
    rw [← List.map_take, ← List.map_take]
    congr 1
    rw [List.take_take, List.take_take, List.take_take]
    congr 1
    omega

/-- Witness for `decode_lockstep_take`: tokens `["a", "b"]`, decoded ids
`[9, 2]`, `end = 2`, so only the first character is covered by a tag. -/
theorem decode_lockstep_take_witness :
    (2 ≤ ([9, 2] : List Nat).length) ∧
    ((∃ rest, (parse_decodes_example [['a'], ['b']] demoId2label [9, 2] 2).1.flatten ++ rest =
      ([['a'], ['b']] : List PyStr).flatten.take
        (min ([['a'], ['b']] : List PyStr).flatten.length (2 - 1))) ∧
    parse_decodes_example [['a'], ['b']] demoId2label [9, 2] 2 =
      parse_decodes_example [['a'], ['b']] demoId2label
        (([9, 2] : List Nat).take (([['a'], ['b']] : List PyStr).flatten.length + 1)) 2) :=
  ⟨by decide, decode_lockstep_take [['a'], ['b']] demoId2label [9, 2] 2 (by decide)⟩

/-! ## Claim theorems: concrete decoding behaviour -/

/-- C7.  A tag sequence beginning with a lone `I-` tag falls into the
continuation branch with an empty accumulator: on the one-character
example `"a"` with decoded tags `[I-LOC]` the decoder returns no span
at all, so the concatenated spans do not equal the source text — the
character is silently dropped. -/
theorem leading_itag_drops_char :
    demoId2label 1 = "I-LOC".data ∧
    parse_decodes_example [['a']] demoId2label [0, 1] 2 = ([], []) ∧
    (parse_decodes_example [['a']] demoId2label [0, 1] 2).1.flatten ≠
      ([['a']] : List PyStr).flatten := by
  decide

/-- Counterexample to C5 as stated: with tokens
`["北","京","欢","迎","你"]`, decoded ids spelling
`[boundary, B-LOC, I-LOC, O, O, O]` and `end = 5`, the slice
`decodes[idx][1:5]` keeps only four tags, so the decoder returns three
pairs — `你` is missing — not the four pairs the claim lists. -/
theorem decode_scenario_end5_cex :
    parse_decodes [(["北", "京", "欢", "迎", "你"].map String.data)] demoId2label
        [[[2, 0, 1, 2, 2, 2]]] [[5]] =
      [((["北京", "欢", "迎"].map String.data), (["LOC", "O", "O"].map String.data))] ∧
    [((["北京", "欢", "迎"].map String.data), (["LOC", "O", "O"].map String.data))] ≠
      [((["北京", "欢", "迎", "你"].map String.data),
        (["LOC", "O", "O", "O"].map String.data))] := by
  decide

/-- C5 (amended).  Same scenario with the valid length `end = 6` (one
boundary position plus five tag positions): the decoder returns exactly
`[("北京","LOC"), ("欢","O"), ("迎","O"), ("你","O")]`. -/
theorem decode_scenario_end6 :
    parse_decodes [(["北", "京", "欢", "迎", "你"].map String.data)] demoId2label
        [[[2, 0, 1, 2, 2, 2]]] [[6]] =
      [((["北京", "欢", "迎", "你"].map String.data),
        (["LOC", "O", "O", "O"].map String.data))] := by
  decide

/-! ## Claim theorems: the recorded entity type -/

lemma pySplit_ne_nil (sep : Char) (l : PyStr) : pySplit sep l ≠ [] := by
  cases l with
  | nil => simp [pySplit]
  | cons c rest =>
    simp only [pySplit]
    cases h : pySplit sep rest with
    | nil => simp
    | cons w ws =>
      by_cases hc : c = sep
      · simp [hc]
      · simp [hc]

lemma pySplit_headD (sep : Char) (l : PyStr) :
    (pySplit sep l).headD [] = l.takeWhile (fun c => c != sep) := by
  induction l with
  | nil => simp [pySplit]
  | cons c rest ih =>
    simp only [pySplit]
    cases h : pySplit sep rest with
    | nil => exact absurd h (pySplit_ne_nil sep rest)
    | cons w ws =>
      have hw : w = rest.takeWhile (fun c => c != sep) := by
        rw [h] at ih
        simpa using ih
      by_cases hc : c = sep
      · simp [hc, List.takeWhile_cons]
      · simp [List.takeWhile_cons, hc, hw]

/-- Counterexample to C6 as stated: for the tag `B-PER-X` the decoder
records the type `PER` — `t.split('-')[1]`, the field between the first
and second `-` — not the entire suffix `PER-X` after `B-`. -/
theorem btag_type_suffix_cex :
    demoId2label 5 = 'B' :: '-' :: "PER-X".data ∧
    (parse_decodes_example [['a']] demoId2label [0, 5] 2).2 = ["PER".data] ∧
    ("PER".data : PyStr) ≠ "PER-X".data := by
  decide

/-- C6 (amended).  For every tag of the form `B-X`, the entity type the
decoder appends to the types list is the part of `X` before its first
`-` (hence all of `X` whenever `X` contains no `-`, but `PER` for
`B-PER-X`); for the tag `O` it is the literal string `O`. -/
theorem btag_type_field (st : DecState) (s : Char) (X : PyStr) :
    (pdStep st s ('B' :: '-' :: X)).tags_out =
      st.tags_out ++ [X.takeWhile (fun c => c != '-')] ∧
    (pdStep st s ['O']).tags_out = st.tags_out ++ [['O']] := by
  constructor
  · have hstart : pyStartsWith ('B' :: '-' :: X) ['B', '-'] = true := by
      simp [pyStartsWith]
    unfold pdStep
    rw [if_pos (by simp [hstart])]
    simp only [hstart, if_true]
    congr 1
    obtain ⟨w, ws, hw⟩ : ∃ w ws, pySplit '-' X = w :: ws := by
      cases h : pySplit '-' X with
      | nil => exact absurd h (pySplit_ne_nil '-' X)
      | cons w ws => exact ⟨w, ws, rfl⟩
    have h2 : pySplit '-' ('B' :: '-' :: X) = ['B'] :: w :: ws := by
      simp only [pySplit, hw]
      simp
    rw [h2]
    have hhead := pySplit_headD '-' X
    rw [hw] at hhead
    simpa using hhead
  · unfold pdStep
    rw [if_pos (by decide)]
    rw [show pyStartsWith ['O'] ['B', '-'] = false from by decide]
    simp
